import Mathlib

/-!
# Agent Orchestration & Provenance subsystem — verification development

Shallow embedding of the core of the `nexus-workspace` repository (the intent
router, the tool-call loop, and the ledger provenance service), with theorems
checking the stated properties of each component.

The backend's Python is embedded in the repository's documentation
(`src/unnamed/part_011`, `src/backend/README.md`); pure functions are
translated to Lean functions, stateful services to explicit state passing,
fallible operations to `Except`/`Option`, and machine words to `Nat` with
explicit reduction modulo `2 ^ 32`.
-/

/-! ## JSON values

`StorePCRResultOnBlockchainTool.execute` hashes
`json.dumps(result_data, sort_keys=True)`. JSON values are modelled as a
mutual inductive (object entries and array elements get their own list
types so that all recursion below is structural and kernel-reducible).
Numbers are modelled as rationals: the payloads hashed by the tool carry
only decimal literals such as `0.98`.
-/

mutual

inductive Jval : Type where
  | null : Jval
  | bool (b : Bool) : Jval
  | num (q : Rat) : Jval
  | str (s : String) : Jval
  | arr (xs : JArr) : Jval
  | obj (entries : JObj) : Jval

inductive JArr : Type where
  | nil : JArr
  | cons (v : Jval) (rest : JArr) : JArr

inductive JObj : Type where
  | nil : JObj
  | cons (k : String) (v : Jval) (rest : JObj) : JObj

end

/-- The entries of a JSON object, as an association list in written order. -/
def JObj.entries : JObj → List (String × Jval)
  | .nil => []
  | .cons k v rest => (k, v) :: rest.entries

/-- One hexadecimal digit, lower case (as `"%x"` formatting produces). -/
def hexDigit (n : Nat) : Char :=
  if n < 10 then Char.ofNat (48 + n) else Char.ofNat (87 + n)

/-- Fixed-width lower-case hexadecimal rendering of `n`, `width` digits. -/
def toHexFixed (width n : Nat) : String :=
  String.mk ((List.range width).map (fun i => hexDigit (n / 16 ^ (width - 1 - i) % 16)))

/-- JSON string escaping as `json.dumps` (default `ensure_ascii=True`)
produces it: `"` and `\` are backslash-escaped, control characters and
non-ASCII characters become `\uXXXX` (astral characters as surrogate
pairs). -/
def quoteJsonChar (c : Char) : String :=
  let n := c.toNat
  if c = '"' then "\\\""
  else if c = '\\' then "\\\\"
  else if n < 32 ∨ 127 ≤ n then
    if n < 65536 then "\\u" ++ toHexFixed 4 n
    else
      let m := n - 65536
      "\\u" ++ toHexFixed 4 (55296 + m / 1024) ++ "\\u" ++ toHexFixed 4 (56320 + m % 1024)
  else String.mk [c]

/-- A JSON string literal: quotes around the escaped characters. -/
def quoteJson (s : String) : String :=
  "\"" ++ String.join (s.data.map quoteJsonChar) ++ "\""

/-- Code-point lexicographic `≤` on character lists, as Python compares the
keys that `sort_keys=True` orders. Structural, so the kernel can run it. -/
def charListLe : List Char → List Char → Bool
  | [], _ => true
  | _ :: _, [] => false
  | a :: as, b :: bs =>
    if a.toNat < b.toNat then true
    else if b.toNat < a.toNat then false
    else charListLe as bs

theorem charListLe_total : ∀ x y, charListLe x y = true ∨ charListLe y x = true
  | [], _ => Or.inl rfl
  | _ :: _, [] => Or.inr rfl
  | a :: as, b :: bs => by
    by_cases hab : a.toNat < b.toNat
    · exact Or.inl (by simp [charListLe, hab])
    · by_cases hba : b.toNat < a.toNat
      · exact Or.inr (by simp [charListLe, hba, hab])
      · rcases charListLe_total as bs with h | h
        · exact Or.inl (by simp [charListLe, hab, hba, h])
        · exact Or.inr (by simp [charListLe, hab, hba, h])

theorem charListLe_antisymm : ∀ x y, charListLe x y = true → charListLe y x = true → x = y
  | [], [], _, _ => rfl
  | [], _ :: _, _, h => by simp [charListLe] at h
  | _ :: _, [], h, _ => by simp [charListLe] at h
  | a :: as, b :: bs, hxy, hyx => by
    by_cases hab : a.toNat < b.toNat
    · simp [charListLe, hab, Nat.lt_asymm hab] at hyx
    · by_cases hba : b.toNat < a.toNat
      · simp [charListLe, hab, hba] at hxy
      · have hn : a = b := by
          apply Char.ext
          apply UInt32.ext
          simpa [Char.toNat, UInt32.toNat] using
            Nat.le_antisymm (Nat.le_of_not_lt hba) (Nat.le_of_not_lt hab)
        simp only [charListLe, hab, if_false, hba] at hxy hyx
        rw [hn, charListLe_antisymm as bs hxy hyx]

theorem charListLe_trans : ∀ x y z, charListLe x y = true → charListLe y z = true →
    charListLe x z = true
  | [], _, _, _, _ => rfl
  | _ :: _, [], _, h, _ => by simp [charListLe] at h
  | _ :: _, _ :: _, [], _, h => by simp [charListLe] at h
  | a :: as, b :: bs, c :: cs, hxy, hyz => by
    simp only [charListLe] at hxy hyz ⊢
    by_cases hab : a.toNat < b.toNat <;> by_cases hbc : b.toNat < c.toNat
    · simp [Nat.lt_trans hab hbc]
    · have hcb : c.toNat ≤ b.toNat := Nat.le_of_not_lt hbc
      simp only [hbc, if_false] at hyz
      by_cases hcb' : c.toNat < b.toNat
      · simp [hcb'] at hyz
      · have : b.toNat = c.toNat := Nat.le_antisymm (Nat.le_of_not_lt hcb') hcb
        simp [this ▸ hab]
    · have hba : b.toNat ≤ a.toNat := Nat.le_of_not_lt hab
      simp only [hab, if_false] at hxy
      by_cases hba' : b.toNat < a.toNat
      · simp [hba'] at hxy
      · have : a.toNat = b.toNat := Nat.le_antisymm (Nat.le_of_not_lt hba') hba
        simp [this ▸ hbc]
    · simp only [hab, if_false, hbc] at hxy hyz
      by_cases hba' : b.toNat < a.toNat
      · simp [hba'] at hxy
      · by_cases hcb' : c.toNat < b.toNat
        · simp [hcb'] at hyz
        · have hac : ¬ a.toNat < c.toNat := by
            have h1 : a.toNat = b.toNat :=
              Nat.le_antisymm (Nat.le_of_not_lt hba') (Nat.le_of_not_lt hab)
            have h2 : b.toNat = c.toNat :=
              Nat.le_antisymm (Nat.le_of_not_lt hcb') (Nat.le_of_not_lt hbc)
            omega
          have hca : ¬ c.toNat < a.toNat := by
            have h1 : a.toNat = b.toNat :=
              Nat.le_antisymm (Nat.le_of_not_lt hba') (Nat.le_of_not_lt hab)
            have h2 : b.toNat = c.toNat :=
              Nat.le_antisymm (Nat.le_of_not_lt hcb') (Nat.le_of_not_lt hbc)
            omega
          simp only [hba', if_false, hcb'] at hxy hyz
          simp [hac, hca, charListLe_trans as bs cs hxy hyz]

/-- Order on rendered object items used for `sort_keys=True`: by key (ties,
which never arise for representable payloads since Python `dict` keys are
unique, fall back to the serialized value so the order is antisymmetric
outright). -/
def pairLeB (a b : String × String) : Bool :=
  if a.1.data = b.1.data then charListLe a.2.data b.2.data
  else charListLe a.1.data b.1.data

/-- The relation of `pairLeB`, for Mathlib's sorting lemmas. -/
def pairLe (a b : String × String) : Prop := pairLeB a b = true

instance : DecidableRel pairLe := fun a b =>
  inferInstanceAs (Decidable (pairLeB a b = true))

theorem string_eq_of_data_eq {a b : String} (h : a.data = b.data) : a = b := by
  cases a; cases b; exact congrArg String.mk h

instance : IsTotal (String × String) pairLe := by
  constructor
  intro a b
  unfold pairLe pairLeB
  by_cases hk : a.1.data = b.1.data
  · rw [if_pos hk, if_pos hk.symm]
    exact charListLe_total a.2.data b.2.data
  · rw [if_neg hk, if_neg (fun h => hk h.symm)]
    exact charListLe_total a.1.data b.1.data

instance : IsTrans (String × String) pairLe := by
  constructor
  intro a b c hab hbc
  unfold pairLe pairLeB at *
  by_cases h1 : a.1.data = b.1.data <;> by_cases h2 : b.1.data = c.1.data
  · rw [if_pos h1] at hab
    rw [if_pos h2] at hbc
    rw [if_pos (h1.trans h2)]
    exact charListLe_trans _ _ _ hab hbc
  · rw [if_pos h1] at hab
    rw [if_neg h2] at hbc
    rw [if_neg (fun h => h2 (h1.symm.trans h)), h1]
    exact hbc
  · rw [if_neg h1] at hab
    rw [if_pos h2] at hbc
    rw [if_neg (fun h => h1 (h.trans h2.symm)), ← h2]
    exact hab
  · rw [if_neg h1] at hab
    rw [if_neg h2] at hbc
    by_cases h3 : a.1.data = c.1.data
    · exact absurd (charListLe_antisymm _ _ hab (h3 ▸ hbc)) h1
    · rw [if_neg h3]
      exact charListLe_trans _ _ _ hab hbc

instance : IsAntisymm (String × String) pairLe := by
  constructor
  intro a b hab hba
  unfold pairLe pairLeB at hab hba
  by_cases hk : a.1.data = b.1.data
  · rw [if_pos hk] at hab
    rw [if_pos hk.symm] at hba
    exact Prod.ext (string_eq_of_data_eq hk)
      (string_eq_of_data_eq (charListLe_antisymm _ _ hab hba))
  · rw [if_neg hk] at hab
    rw [if_neg (fun h => hk h.symm)] at hba
    exact absurd (charListLe_antisymm _ _ hab hba) hk

/-- Sort rendered object items as `sort_keys=True` does (by key; keys of a
Python `dict` are unique, so the value tiebreak is inert). -/
def sortItems (l : List (String × String)) : List (String × String) :=
  List.insertionSort pairLe l

/-- Render one sorted object item with `json.dumps`'s default `": "`
key separator. -/
def renderItem (kv : String × String) : String :=
  quoteJson kv.1 ++ ": " ++ kv.2

mutual

/-- Canonical serialization: `json.dumps(·, sort_keys=True)` with the
default separators `", "` and `": "`. Object entries are serialized and
then sorted by key. -/
def serializeJ : Jval → String
  | .null => "null"
  | .bool true => "true"
  | .bool false => "false"
  | .num q => toString q
  | .str s => quoteJson s
  | .arr xs => "[" ++ String.intercalate ", " (serializeArr xs) ++ "]"
  | .obj l => "\x7b" ++ String.intercalate ", " ((sortItems (serializeItems l)).map renderItem) ++ "\x7d"

/-- Serialize the elements of a JSON array, in order. -/
def serializeArr : JArr → List String
  | .nil => []
  | .cons v rest => serializeJ v :: serializeArr rest

/-- Serialize the entries of a JSON object, keeping the written entry order
and keys (sorting happens afterwards, on the rendered items). -/
def serializeItems : JObj → List (String × String)
  | .nil => []
  | .cons k v rest => (k, serializeJ v) :: serializeItems rest

end

example : serializeJ (.obj (.cons "b" (.num 1) (.cons "a" (.str "x") .nil)))
    = "\x7b\"a\": \"x\", \"b\": 1\x7d" := by rfl

/-! ## UTF-8 and SHA-256

`compute_hash` is `hashlib.sha256(result_json.encode()).hexdigest()`
(`StorePCRResultOnBlockchainTool.execute`). `.encode()` is UTF-8; SHA-256 is
embedded below over `Nat` with explicit reduction modulo `2 ^ 32`
(FIPS 180-4: padding, 64-word message schedule, 64 compression rounds,
8-word chaining value), and the digest is hex-encoded to 64 characters.
-/

/-- UTF-8 encoding of one character (code point already validated by
`Char`), as `str.encode()` produces it. -/
def utf8Char (c : Char) : List Nat :=
  let n := c.toNat
  if n < 128 then [n]
  else if n < 2048 then [192 + n / 64, 128 + n % 64]
  else if n < 65536 then [224 + n / 4096, 128 + n / 64 % 64, 128 + n % 64]
  else [240 + n / 262144, 128 + n / 4096 % 64, 128 + n / 64 % 64, 128 + n % 64]

/-- UTF-8 bytes of a string. -/
def utf8Bytes (s : String) : List Nat :=
  (s.data.map utf8Char).flatten

/-- Truncation to a 32-bit word. -/
def w32 (n : Nat) : Nat := n % 4294967296

/-- Right rotation of a 32-bit word by `s` places. -/
def rotr32 (x s : Nat) : Nat :=
  w32 (x / 2 ^ s + x % 2 ^ s * 2 ^ (32 - s))

/-- SHA-256 `Ch(e, f, g)`. -/
def shaCh (e f g : Nat) : Nat := (e &&& f) ^^^ ((e ^^^ 4294967295) &&& g)

/-- SHA-256 `Maj(a, b, c)`. -/
def shaMaj (a b c : Nat) : Nat := (a &&& b) ^^^ (a &&& c) ^^^ (b &&& c)

/-- SHA-256 `Σ₀`. -/
def shaBigSigma0 (a : Nat) : Nat := rotr32 a 2 ^^^ rotr32 a 13 ^^^ rotr32 a 22

/-- SHA-256 `Σ₁`. -/
def shaBigSigma1 (e : Nat) : Nat := rotr32 e 6 ^^^ rotr32 e 11 ^^^ rotr32 e 25

/-- SHA-256 `σ₀`. -/
def shaSmallSigma0 (x : Nat) : Nat := rotr32 x 7 ^^^ rotr32 x 18 ^^^ (x / 2 ^ 3)

/-- SHA-256 `σ₁`. -/
def shaSmallSigma1 (x : Nat) : Nat := rotr32 x 17 ^^^ rotr32 x 19 ^^^ (x / 2 ^ 10)

/-- The 64 SHA-256 round constants `K`. -/
def shaK : List Nat :=
  [1116352408, 1899447441, 3049323471, 3921009573, 961987163,
   1508970993, 2453635748, 2870763221, 3624381080, 310598401,
   607225278, 1426881987, 1925078388, 2162078206, 2614888103,
   3248222580, 3835390401, 4022224774, 264347078, 604807628,
   770255983, 1249150122, 1555081692, 1996064986, 2554220882,
   2821834349, 2952996808, 3210313671, 3336571891, 3584528711,
   113926993, 338241895, 666307205, 773529912, 1294757372,
   1396182291, 1695183700, 1986661051, 2177026350, 2456956037,
   2730485921, 2820302411, 3259730800, 3345764771, 3516065817,
   3600352804, 4094571909, 275423344, 430227734, 506948616,
   659060556, 883997877, 958139571, 1322822218, 1537002063,
   1747873779, 1955562222, 2024104815, 2227730452, 2361852424,
   2428436474, 2756734187, 3204031479, 3329325298]

/-- An 8-word SHA-256 chaining value. -/
structure Hash8 where
  a : Nat
  b : Nat
  c : Nat
  d : Nat
  e : Nat
  f : Nat
  g : Nat
  h : Nat

/-- The SHA-256 initial hash value `H⁽⁰⁾`. -/
def shaH0 : Hash8 :=
  ⟨1779033703, 3144134277, 1013904242, 2773480762,
   1359893119, 2600822924, 528734635, 1541459225⟩

/-- SHA-256 padding: append `0x80`, zeros to 56 mod 64, then the bit length
as 8 big-endian bytes. -/
def shaPad (msg : List Nat) : List Nat :=
  let L := msg.length
  let z := (56 + 64 - (L + 1) % 64) % 64
  msg ++ [128] ++ List.replicate z 0 ++
    (List.range 8).map (fun i => 8 * L / 2 ^ (8 * (7 - i)) % 256)

/-- Split the padded message into 64-byte blocks (fuel-based so the
recursion is structural). -/
def toBlocksAux : Nat → List Nat → List (List Nat)
  | 0, _ => []
  | _ + 1, [] => []
  | fuel + 1, l => l.take 64 :: toBlocksAux fuel (l.drop 64)

/-- The 64-byte blocks of a byte list. -/
def toBlocks (l : List Nat) : List (List Nat) := toBlocksAux l.length l

/-- The 16 initial 32-bit words of a 64-byte block, big-endian. -/
def blockWords (block : List Nat) : List Nat :=
  (List.range 16).map (fun i =>
    block.getD (4 * i) 0 * 16777216 + block.getD (4 * i + 1) 0 * 65536 +
      block.getD (4 * i + 2) 0 * 256 + block.getD (4 * i + 3) 0)

/-- Extend the message schedule by `n` further words. -/
def extendSchedule : Nat → List Nat → List Nat
  | 0, ws => ws
  | n + 1, ws =>
    let m := ws.length
    extendSchedule n (ws ++ [w32 (shaSmallSigma1 (ws.getD (m - 2) 0) + ws.getD (m - 7) 0 +
      shaSmallSigma0 (ws.getD (m - 15) 0) + ws.getD (m - 16) 0)])

/-- One SHA-256 compression round with round constant `k` and schedule
word `w`. -/
def shaRound (s : Hash8) (k w : Nat) : Hash8 :=
  let t1 := w32 (s.h + shaBigSigma1 s.e + shaCh s.e s.f s.g + k + w)
  let t2 := w32 (shaBigSigma0 s.a + shaMaj s.a s.b s.c)
  ⟨w32 (t1 + t2), s.a, s.b, s.c, w32 (s.d + t1), s.e, s.f, s.g⟩

/-- Process one 64-byte block: 64 rounds, then add into the chaining
value. -/
def processBlock (hs : Hash8) (block : List Nat) : Hash8 :=
  let ws := extendSchedule 48 (blockWords block)
  let s := (shaK.zip ws).foldl (fun st kw => shaRound st kw.1 kw.2) hs
  ⟨w32 (hs.a + s.a), w32 (hs.b + s.b), w32 (hs.c + s.c), w32 (hs.d + s.d),
   w32 (hs.e + s.e), w32 (hs.f + s.f), w32 (hs.g + s.g), w32 (hs.h + s.h)⟩

/-- SHA-256 of a byte list, as the final 8-word chaining value. -/
def sha256Words (msg : List Nat) : Hash8 :=
  (toBlocks (shaPad msg)).foldl processBlock shaH0

/-- SHA-256 of a byte list, as a single natural number below `2 ^ 256`. -/
def sha256Nat (msg : List Nat) : Nat :=
  let hs := sha256Words msg
  ((((((hs.a * 4294967296 + hs.b) * 4294967296 + hs.c) * 4294967296 + hs.d) * 4294967296 +
    hs.e) * 4294967296 + hs.f) * 4294967296 + hs.g) * 4294967296 + hs.h

/-- The `hexdigest()` rendering: the digest as 64 lower-case hex characters. -/
def sha256hex (msg : List Nat) : String := toHexFixed 64 (sha256Nat msg)

/-- The digest pipeline `compute_hash`:
`hashlib.sha256(json.dumps(data, sort_keys=True).encode()).hexdigest()`,
exactly the digest pipeline of `StorePCRResultOnBlockchainTool.execute`. -/
def compute_hash (data : Jval) : String := sha256hex (utf8Bytes (serializeJ data))

/-- All eight words of a chaining value are 32-bit. -/
def Hash8.Bounded (hs : Hash8) : Prop :=
  hs.a < 4294967296 ∧ hs.b < 4294967296 ∧ hs.c < 4294967296 ∧ hs.d < 4294967296 ∧
    hs.e < 4294967296 ∧ hs.f < 4294967296 ∧ hs.g < 4294967296 ∧ hs.h < 4294967296

theorem w32_lt (n : Nat) : w32 n < 4294967296 := Nat.mod_lt _ (by norm_num)

theorem processBlock_bounded (hs : Hash8) (block : List Nat) :
    (processBlock hs block).Bounded :=
  ⟨w32_lt _, w32_lt _, w32_lt _, w32_lt _, w32_lt _, w32_lt _, w32_lt _, w32_lt _⟩

theorem foldl_processBlock_bounded (bs : List (List Nat)) :
    ∀ hs : Hash8, hs.Bounded → (bs.foldl processBlock hs).Bounded := by
  induction bs with
  | nil => exact fun _ h => h
  | cons b bs ih =>
    intro hs _
    rw [List.foldl_cons]
    exact ih (processBlock hs b) (processBlock_bounded hs b)

theorem sha256Nat_lt (msg : List Nat) : sha256Nat msg < 2 ^ 256 := by
  have hb : (sha256Words msg).Bounded :=
    foldl_processBlock_bounded _ shaH0 ⟨by decide, by decide, by decide, by decide,
      by decide, by decide, by decide, by decide⟩
  obtain ⟨h1, h2, h3, h4, h5, h6, h7, h8⟩ := hb
  unfold sha256Nat
  norm_num
  omega

/-! ## C1 — canonical hashing is field-order independent -/

theorem serializeItems_eq_map :
    ∀ o : JObj, serializeItems o = o.entries.map (fun kv => (kv.1, serializeJ kv.2))
  | .nil => rfl
  | .cons _ _ rest => by
    simp only [serializeItems, JObj.entries, List.map_cons, serializeItems_eq_map rest]

theorem sortItems_eq_of_perm {l₁ l₂ : List (String × String)} (h : l₁.Perm l₂) :
    sortItems l₁ = sortItems l₂ := by
  apply List.eq_of_perm_of_sorted (r := pairLe)
  · exact ((List.perm_insertionSort pairLe l₁).trans h).trans
      (List.perm_insertionSort pairLe l₂).symm
  · exact List.sorted_insertionSort pairLe l₁
  · exact List.sorted_insertionSort pairLe l₂

theorem serializeJ_obj_eq_of_perm {o₁ o₂ : JObj} (h : o₁.entries.Perm o₂.entries) :
    serializeJ (.obj o₁) = serializeJ (.obj o₂) := by
  have hitems : (serializeItems o₁).Perm (serializeItems o₂) := by
    rw [serializeItems_eq_map, serializeItems_eq_map]
    exact h.map _
  show "\x7b" ++ _ ++ "\x7d" = "\x7b" ++ _ ++ "\x7d"
  rw [sortItems_eq_of_perm hitems]

/-- C1. `compute_hash` is a pure, deterministic function of the payload's
canonical serialization: an experiment payload whose fields are written in
a different order (same keys, same values — a permutation of the entries)
produces the identical digest, and hashing the same payload twice yields
the same digest. -/
theorem compute_hash_canonical (o₁ o₂ : JObj) (h : o₁.entries.Perm o₂.entries) :
    compute_hash (.obj o₁) = compute_hash (.obj o₂) ∧
      compute_hash (.obj o₁) = compute_hash (.obj o₁) := by
  constructor
  · unfold compute_hash
    rw [serializeJ_obj_eq_of_perm h]
  · rfl

/-- C1 witness: the demo payload `{"id": "exp1", "value": 42}` hashes the
same with its two fields swapped. -/
theorem compute_hash_canonical_witness :
    compute_hash (.obj (.cons "id" (.str "exp1") (.cons "value" (.num 42) .nil)))
      = compute_hash (.obj (.cons "value" (.num 42) (.cons "id" (.str "exp1") .nil))) :=
  (compute_hash_canonical
    (.cons "id" (.str "exp1") (.cons "value" (.num 42) .nil))
    (.cons "value" (.num 42) (.cons "id" (.str "exp1") .nil))
    (List.Perm.swap _ _ _)).1



/-! ## Ledger provenance service

`NeoXBlockchainService.store_experiment_hash` (embedded in
`src/unnamed/part_011`) assigns the transaction the account's current
transaction count as nonce, signs and submits it, and returns the
transaction hash. The chain is modelled as the list of submitted
transactions (newest first); the transaction id stands in for the hash of
the signed transaction. The error taxonomy is the spec's (§7).
-/

/-- One submitted provenance transaction: id, embedded payload fields, and
the nonce it was assigned. -/
structure ChainTx where
  txId : String
  experiment_id : String
  data_hash : String
  nonce : Nat

/-- The ledger client's visible state: connectivity plus the submitted
transactions, newest first. -/
structure LedgerChain where
  connected : Bool
  txs : List ChainTx

/-- Ledger failure taxonomy (spec §7). -/
inductive LedgerError : Type where
  | ledgerUnavailable : LedgerError
  | insufficientFunds : LedgerError
  | confirmationTimeout : LedgerError
deriving DecidableEq

/-- The store operation `store_experiment_hash`: on a reachable network, build the transaction
embedding the experiment id and data hash, assign the next nonce
(`get_transaction_count`), submit, and return the transaction id; an
unreachable network is the spec's `LedgerUnavailable`. -/
def store_experiment_hash (c : LedgerChain) (experiment_id data_hash : String) :
    Except LedgerError (String × LedgerChain) :=
  if c.connected then
    let nonce := c.txs.length
    let tid := "0x" ++ toString nonce
    .ok (tid, ⟨c.connected, ⟨tid, experiment_id, data_hash, nonce⟩ :: c.txs⟩)
  else .error .ledgerUnavailable

/-- The ledger client's `get_transaction(tx_id)`: fetch a submitted transaction by id. -/
def get_transaction (c : LedgerChain) (tid : String) : Option ChainTx :=
  c.txs.find? (fun t => t.txId == tid)

/-- Verification outcome (spec §4.4). -/
inductive VerifyOutcome : Type where
  | MATCH : VerifyOutcome
  | MISMATCH : VerifyOutcome
  | VerificationUnavailable : VerifyOutcome
deriving DecidableEq

/-- Modelled from the spec: `VerifyExperimentIntegrityTool`'s body is not in
the repository snapshot (only its contract in `src/backend/README.md`).
Per spec §4.4 it fetches the original transaction payload by `tx_id`,
recomputes the digest of `current_data`, and compares byte-for-byte;
a failed fetch is `VerificationUnavailable`, never `MISMATCH`. -/
def verify_experiment_integrity (c : LedgerChain) (current_data : Jval) (tid : String) :
    VerifyOutcome :=
  match get_transaction c tid with
  | none => .VerificationUnavailable
  | some t => if compute_hash current_data = t.data_hash then .MATCH else .MISMATCH

/-- The `StoreExperimentOnChainTool` pipeline: hash the experiment data with
`compute_hash`, then store the digest on chain. -/
def store_experiment_data (c : LedgerChain) (experiment_id : String) (data : Jval) :
    Except LedgerError (String × LedgerChain) :=
  store_experiment_hash c experiment_id (compute_hash data)

/-! ## C2 — verify decides digest equality, not payload equality -/

/-- The payload family `{"id": s}`, used to exhibit that infinitely many
payloads share finitely many digests. -/
def idPayload (s : String) : Jval := .obj (.cons "id" (.str s) .nil)

/-- C2 counterexample: it is not true that every payload differing from the
stored one verifies as `MISMATCH`. The digest space is finite (`2 ^ 256`
values) while payloads are not, so two distinct payloads share a digest,
and `verify` — which compares digests — answers `MATCH` for the second
against the first's transaction. -/
theorem verify_mismatch_refuted :
    ¬ (∀ (d d' : Jval) (tid : String) (c' : LedgerChain),
        store_experiment_data ⟨true, []⟩ "exp1" d = .ok (tid, c') →
        d' ≠ d → verify_experiment_integrity c' d' tid = .MISMATCH) := by
  intro hclaim
  obtain ⟨s₁, s₂, hne, heq⟩ := Finite.exists_ne_map_eq_of_infinite
    (fun s : String =>
      (⟨sha256Nat (utf8Bytes (serializeJ (idPayload s))), sha256Nat_lt _⟩ : Fin (2 ^ 256)))
  have hnat : sha256Nat (utf8Bytes (serializeJ (idPayload s₁)))
      = sha256Nat (utf8Bytes (serializeJ (idPayload s₂))) := congrArg Fin.val heq
  have hhash : compute_hash (idPayload s₁) = compute_hash (idPayload s₂) :=
    congrArg (toHexFixed 64) hnat
  have hdne : idPayload s₂ ≠ idPayload s₁ := by
    intro h
    simp only [idPayload, Jval.obj.injEq, JObj.cons.injEq, Jval.str.injEq, true_and,
      and_true] at h
    exact hne h.symm
  have hstore : store_experiment_data ⟨true, []⟩ "exp1" (idPayload s₁)
      = .ok ("0x" ++ toString (0 : Nat),
          ⟨true, [⟨"0x" ++ toString (0 : Nat), "exp1", compute_hash (idPayload s₁), 0⟩]⟩) := rfl
  have hver := hclaim (idPayload s₁) (idPayload s₂) _ _ hstore hdne
  rw [verify_experiment_integrity, get_transaction] at hver
  simp only [List.find?_cons, beq_self_eq_true, hhash.symm, if_pos rfl] at hver
  exact VerifyOutcome.noConfusion hver

/-- C2 as amended: storing `D` yields a transaction against which `D`
verifies as `MATCH`, and a payload `D'` verifies as `MISMATCH` exactly when
its canonical digest differs from `D`'s (digest inequality, not payload
inequality, is what `verify` decides; the two coincide except on SHA-256
collisions, which exist by cardinality but are not exhibitable). -/
theorem verify_roundtrip (c : LedgerChain) (eid : String) (d d' : Jval)
    (h : c.connected = true) :
    ∃ tid c', store_experiment_data c eid d = .ok (tid, c') ∧
      verify_experiment_integrity c' d tid = .MATCH ∧
      verify_experiment_integrity c' d' tid =
        (if compute_hash d' = compute_hash d then .MATCH else .MISMATCH) := by
  refine ⟨"0x" ++ toString c.txs.length,
    ⟨c.connected, ⟨"0x" ++ toString c.txs.length, eid, compute_hash d, c.txs.length⟩ :: c.txs⟩,
    ?_, ?_, ?_⟩
  · rw [store_experiment_data, store_experiment_hash, if_pos h]
  · rw [verify_experiment_integrity, get_transaction]
    simp [List.find?_cons]
  · rw [verify_experiment_integrity, get_transaction]
    simp [List.find?_cons]

/-- C2 witness: the amended statement instantiated on a connected, empty
chain with the demo payloads `{"id": "exp1"}` and `{"id": "exp2"}`. -/
theorem verify_roundtrip_witness :
    ∃ tid c', store_experiment_data ⟨true, []⟩ "exp1" (idPayload "exp1") = .ok (tid, c') ∧
      verify_experiment_integrity c' (idPayload "exp1") tid = .MATCH ∧
      verify_experiment_integrity c' (idPayload "exp2") tid =
        (if compute_hash (idPayload "exp2") = compute_hash (idPayload "exp1")
          then .MATCH else .MISMATCH) :=
  verify_roundtrip ⟨true, []⟩ "exp1" (idPayload "exp1") (idPayload "exp2") rfl

/-! ## C3 — unreachable ledger: error out, no transaction id, no record

`StorePCRResultOnBlockchainTool.execute` (embedded in
`src/unnamed/part_011`): build `result_data`, hash it, and only then touch
the chain; `if not blockchain.is_connected()` it returns the error payload
`{"error": "Blockchain not connected", ...}` — the code's surface for the
spec's `LedgerUnavailable` — with the hash but no transaction hash, and
without submitting anything. `datetime.utcnow()` is passed in explicitly
as `timestamp`.
-/

/-- The `result_data` dictionary the tool hashes, fields in written order
(`sort_keys=True` orders them during serialization). -/
def pcrResultData (sample_id sequence species : String) (confidence : Rat)
    (gene_region timestamp : String) : Jval :=
  .obj (.cons "sample_id" (.str sample_id)
    (.cons "sequence" (.str sequence)
      (.cons "species" (.str species)
        (.cons "confidence" (.num confidence)
          (.cons "gene_region" (.str gene_region)
            (.cons "timestamp" (.str timestamp)
              (.cons "analysis_method" (.str "PCR + DNA Barcoding") .nil)))))))

/-- The dictionary `StorePCRResultOnBlockchainTool.execute` returns, by the
fields the claims inspect. -/
structure PCRStoreOutput where
  success : Bool
  errorMsg : Option String
  result_hash : String
  transaction_hash : Option String

/-- The tool body `StorePCRResultOnBlockchainTool.execute`: hash the result, bail out
with an error (hash included, no transaction hash) if the chain is
unreachable or the submission fails, otherwise return the transaction
hash and the updated chain. -/
def store_pcr_result_execute (c : LedgerChain) (sample_id sequence species : String)
    (confidence : Rat) (gene_region timestamp : String) : PCRStoreOutput × LedgerChain :=
  let result_data := pcrResultData sample_id sequence species confidence gene_region timestamp
  let result_hash := compute_hash result_data
  if c.connected then
    match store_experiment_hash c sample_id result_hash with
    | .error _ => (⟨false, some "Transaction failed", result_hash, none⟩, c)
    | .ok (tid, c') => (⟨true, none, result_hash, some tid⟩, c')
  else (⟨false, some "Blockchain not connected", result_hash, none⟩, c)

/-- C3. When the ledger client reports no connection, the store operation
fails with the code's `LedgerUnavailable` surface
(`"Blockchain not connected"`, and `LedgerError.ledgerUnavailable` at the
service layer), returns no transaction id, and leaves the chain exactly as
it was — no ProvenanceRecord is retained. -/
theorem store_unavailable_no_record (c : LedgerChain) (sample_id sequence species : String)
    (confidence : Rat) (gene_region timestamp : String) (h : c.connected = false) :
    (store_pcr_result_execute c sample_id sequence species confidence
        gene_region timestamp).1.errorMsg = some "Blockchain not connected" ∧
      (store_pcr_result_execute c sample_id sequence species confidence
        gene_region timestamp).1.transaction_hash = none ∧
      (store_pcr_result_execute c sample_id sequence species confidence
        gene_region timestamp).1.success = false ∧
      (store_pcr_result_execute c sample_id sequence species confidence
        gene_region timestamp).2 = c ∧
      (∀ eid dh, store_experiment_hash c eid dh = .error .ledgerUnavailable) := by
  refine ⟨?_, ?_, ?_, ?_, ?_⟩ <;>
    simp [store_pcr_result_execute, store_experiment_hash, h]

/-- C3 witness: a disconnected chain with one pre-existing transaction is
left untouched and the demo call reports the connection error with no
transaction hash. -/
theorem store_unavailable_no_record_witness :
    (store_pcr_result_execute ⟨false, [⟨"0x0", "old", "h", 0⟩]⟩ "Sample_FoodSafety_001"
        "ACTGGTCA" "Oncorhynchus mykiss" (98 / 100) "COI"
        "2025-12-07T10:15:27").1.errorMsg = some "Blockchain not connected" ∧
      (store_pcr_result_execute ⟨false, [⟨"0x0", "old", "h", 0⟩]⟩ "Sample_FoodSafety_001"
        "ACTGGTCA" "Oncorhynchus mykiss" (98 / 100) "COI"
        "2025-12-07T10:15:27").1.transaction_hash = none ∧
      (store_pcr_result_execute ⟨false, [⟨"0x0", "old", "h", 0⟩]⟩ "Sample_FoodSafety_001"
        "ACTGGTCA" "Oncorhynchus mykiss" (98 / 100) "COI"
        "2025-12-07T10:15:27").1.success = false ∧
      (store_pcr_result_execute ⟨false, [⟨"0x0", "old", "h", 0⟩]⟩ "Sample_FoodSafety_001"
        "ACTGGTCA" "Oncorhynchus mykiss" (98 / 100) "COI"
        "2025-12-07T10:15:27").2 = ⟨false, [⟨"0x0", "old", "h", 0⟩]⟩ ∧
      (∀ eid dh, store_experiment_hash ⟨false, [⟨"0x0", "old", "h", 0⟩]⟩ eid dh
        = .error .ledgerUnavailable) :=
  store_unavailable_no_record ⟨false, [⟨"0x0", "old", "h", 0⟩]⟩ "Sample_FoodSafety_001"
    "ACTGGTCA" "Oncorhynchus mykiss" (98 / 100) "COI" "2025-12-07T10:15:27" rfl

/-! ## Intent router

`classify_intent` (`backend/main.py:214`) is only excerpted in the
repository snapshot (`src/unnamed/part_011` shows the first two regex
rules, the agent list with `Default → LiteratureAgent`, and
`# ... etc`). Modelled from the spec: an ordered list of
(keyword patterns, agent id, intent label) rules evaluated top to bottom
over the lower-cased message, first match wins, with the default agent
when nothing matches (spec §4.1); the blockchain keyword table comes from
`src/backend/README.md` and status/balance queries yield the
`status_check` intent (spec §8 scenario). A pattern matches when one of
its keywords occurs in the message (word-boundary subtleties of the
regexes are below the granularity the claims exercise).
-/

/-- Does `needle` occur as a contiguous substring of `hay`? -/
def containsSeq (needle hay : List Char) : Bool :=
  hay.tails.any (fun t => needle.isPrefixOf t)

/-- One router rule: keyword patterns, the agent they select, and the
intent label reported with it. -/
structure RouterRule where
  keywords : List String
  agent : String
  intent : String

/-- The ordered rule list, agents in the declaration order of the routing
table (PCR, experiment, protocol, blockchain status, blockchain,
literature, reagent). -/
def routerRules : List RouterRule :=
  [⟨["pcr", "fish species", "dna sequence"], "pcr_fish_agent", "pcr_fish_operation"⟩,
   ⟨["experiment"], "experiment_agent", "experiment_operation"⟩,
   ⟨["protocol"], "protocol_agent", "protocol_operation"⟩,
   ⟨["balance", "status", "connection"], "blockchain_agent", "status_check"⟩,
   ⟨["blockchain", "neo x", "on-chain", "transaction hash", "verify integrity",
     "provenance", "tampering", "notarize"], "blockchain_agent", "blockchain_operation"⟩,
   ⟨["paper", "literature", "pubmed", "search"], "literature_agent", "literature_operation"⟩,
   ⟨["reagent", "inventory", "stock"], "reagent_agent", "reagent_operation"⟩]

/-- The configured default: unmatched messages go to the literature agent. -/
def defaultRoute : String × String := ("literature_agent", "general_query")

/-- A rule used only as the inert `getD` fallback in index-based
statements; it matches nothing. -/
def noRule : RouterRule := ⟨[], defaultRoute.1, defaultRoute.2⟩

/-- The lower-cased character stream of a message. -/
def lowerData (m : String) : List Char := m.data.map Char.toLower

/-- Does a rule match a (lower-cased) message? -/
def matchesRule (r : RouterRule) (lc : List Char) : Bool :=
  r.keywords.any (fun k => containsSeq k.data lc)

/-- The router `classify_intent(message) → (agent_id, intent_label)`: first matching
rule in declaration order, default otherwise. -/
def classify_intent (message : String) : String × String :=
  match routerRules.find? (fun r => matchesRule r (lowerData message)) with
  | some r => (r.agent, r.intent)
  | none => defaultRoute

/-! ## C4 — the router always produces an agent -/

/-- C4. `classify_intent` is total: every message — the empty string
included — yields an agent/intent pair; a message matched by some rule
reports that rule's pair, and a message matched by no rule falls to the
configured default agent. -/
theorem classify_intent_total (m : String) :
    ((∃ r ∈ routerRules, matchesRule r (lowerData m) = true ∧
        classify_intent m = (r.agent, r.intent)) ∨
      classify_intent m = defaultRoute) ∧
    classify_intent "" = defaultRoute := by
  constructor
  · match hfind : routerRules.find? (fun r => matchesRule r (lowerData m)) with
    | some r =>
      refine Or.inl ⟨r, List.mem_of_find?_eq_some hfind, ?_, by rw [classify_intent, hfind]⟩
      exact List.find?_some (p := fun r => matchesRule r (lowerData m)) hfind
    | none =>
      exact Or.inr (by rw [classify_intent, hfind])
  · rfl

/-! ## C5 — the router is pure, deterministic, and case-insensitive -/

/-- C5. `classify_intent` is a pure function (same input, same output) and
is case-insensitive: any two messages that agree after lower-casing —
in particular, any change of letter case of one message — route
identically. -/
theorem classify_intent_case_insensitive (m₁ m₂ : String)
    (h : lowerData m₁ = lowerData m₂) :
    classify_intent m₁ = classify_intent m₂ ∧ classify_intent m₁ = classify_intent m₁ := by
  constructor
  · rw [classify_intent, classify_intent, h]
  · rfl

/-- C5 witness: the demo message in three spellings. -/
theorem classify_intent_case_insensitive_witness :
    lowerData "Check my Neo X balance" = lowerData "CHECK MY NEO X BALANCE" ∧
      classify_intent "Check my Neo X balance" = classify_intent "CHECK MY NEO X BALANCE" :=
  ⟨by decide, (classify_intent_case_insensitive "Check my Neo X balance"
    "CHECK MY NEO X BALANCE" (by decide)).1⟩

/-! ## C6 — first matching rule in declaration order wins -/

theorem find?_eq_of_first_index {α : Type} (p : α → Bool) (dflt : α) :
    ∀ (l : List α) (i : Nat), p (l.getD i dflt) = true → i < l.length →
      ((List.range i).all fun j => !(p (l.getD j dflt))) = true →
      l.find? p = some (l.getD i dflt)
  | [], i, _, hlen, _ => absurd hlen (by simp)
  | x :: xs, 0, hp, _, _ => by
    simp only [List.getD_cons_zero] at hp ⊢
    rw [List.find?_cons, hp]
  | x :: xs, i + 1, hp, hlen, hall => by
    have hx : p x = false := by
      have h0 := (List.all_eq_true.mp hall) 0 (List.mem_range.mpr (Nat.succ_pos i))
      simpa using h0
    have hall' : ((List.range i).all fun j => !(p (xs.getD j dflt))) = true := by
      rw [List.all_eq_true]
      intro j hj
      have := (List.all_eq_true.mp hall) (j + 1)
        (List.mem_range.mpr (Nat.succ_lt_succ (List.mem_range.mp hj)))
      simpa using this
    have hrec := find?_eq_of_first_index p dflt xs i (by simpa using hp)
      (by simpa using Nat.lt_of_succ_lt_succ hlen) hall'
    simp only [List.getD_cons_succ]
    rw [List.find?_cons, hx]
    exact hrec

/-- C6. Rules are evaluated top to bottom in declaration order: if rule `i`
matches a message and no earlier rule does, the router answers with rule
`i`'s agent and intent — regardless of any later rule (more or less
specific) that also matches. -/
theorem classify_intent_first_match (m : String) (i : Nat)
    (hp : matchesRule (routerRules.getD i noRule) (lowerData m) = true)
    (hlen : i < routerRules.length)
    (hall : ((List.range i).all fun j => !(matchesRule (routerRules.getD j noRule)
      (lowerData m))) = true) :
    classify_intent m =
      ((routerRules.getD i noRule).agent, (routerRules.getD i noRule).intent) := by
  rw [classify_intent,
    find?_eq_of_first_index (fun r => matchesRule r (lowerData m)) noRule routerRules i
      hp hlen hall]

/-- C6 witness: `"blockchain protocol"` matches both the protocol rule
(index 2) and the later blockchain rule (index 4); declaration order, not
specificity, decides, so the protocol agent wins. -/
theorem classify_intent_first_match_witness :
    matchesRule (routerRules.getD 2 noRule) (lowerData "blockchain protocol") = true ∧
      matchesRule (routerRules.getD 4 noRule) (lowerData "blockchain protocol") = true ∧
      classify_intent "blockchain protocol" = ("protocol_agent", "protocol_operation") :=
  ⟨by decide, by decide,
    classify_intent_first_match "blockchain protocol" 2 (by decide) (by decide) (by decide)⟩

/-! ## C7 — "Check my Neo X balance" routes to the blockchain agent -/

/-- C7. The scenario of spec §8: the message `"Check my Neo X balance"`
routes to `blockchain_agent` with intent label `status_check`. -/
theorem classify_intent_neo_x_balance :
    classify_intent "Check my Neo X balance" = ("blockchain_agent", "status_check") := by
  decide

/-! ## Agent runtime tool-call loop

Modelled from the spec: the loop body lives in the external SpoonOS
`ToolCallAgent.run` and is not in the repository snapshot. Per spec §4.2
the per-invocation state machine is
`Idle → Reasoning → (ToolSelected → ToolExecuting → Reasoning)* →
Responding → Done`; each reasoning step consults an external engine that
either produces a final answer or requests another tool call, tool results
(success or error) are fed back to the engine, and a hard maximum
iteration count forces `Responding` with a best-effort partial answer and
a `MaxIterationsExceeded` flag.
-/

/-- A `ToolResult`: tagged success or error, never an exception (spec §3). -/
inductive ToolResult : Type where
  | ok (payload : String) : ToolResult
  | error (kind msg : String) : ToolResult

/-- One reasoning-engine reply: a final answer, or a tool call request. -/
inductive EngineReply : Type where
  | finalAnswer (text : String) : EngineReply
  | toolCall (name params : String) : EngineReply

/-- The loop's states (spec §4.2). -/
inductive LoopState : Type where
  | Idle : LoopState
  | Reasoning : LoopState
  | ToolSelected : LoopState
  | ToolExecuting : LoopState
  | Responding : LoopState
  | Done : LoopState
deriving DecidableEq

/-- What one turn of the loop produces. -/
structure TurnResult where
  answer : String
  toolCalls : Nat
  maxIterationsExceeded : Bool
  trace : List LoopState

/-- The loop body: with remaining budget, ask the engine (over the tool
results so far); a final answer moves through `Responding` to `Done`; a
tool request executes the tool, appends its `ToolResult`, and returns to
`Reasoning`; an exhausted budget with the engine still requesting tools
forces `Responding` with a partial answer and the `MaxIterationsExceeded`
flag. -/
def toolLoopAux (engine : List ToolResult → EngineReply) (tools : String → String → ToolResult) :
    Nat → List ToolResult → Nat → List LoopState → TurnResult
  | 0, acc, count, tr =>
    match engine acc with
    | .finalAnswer a => ⟨a, count, false, tr ++ [.Responding, .Done]⟩
    | .toolCall _ _ => ⟨"partial answer", count, true, tr ++ [.Responding, .Done]⟩
  | fuel + 1, acc, count, tr =>
    match engine acc with
    | .finalAnswer a => ⟨a, count, false, tr ++ [.Responding, .Done]⟩
    | .toolCall n p =>
      toolLoopAux engine tools fuel (acc ++ [tools n p]) (count + 1)
        (tr ++ [.ToolSelected, .ToolExecuting, .Reasoning])

/-- One turn: start at `Idle`, enter `Reasoning`, and run the loop under
the configured maximum iteration count. -/
def runToolLoop (engine : List ToolResult → EngineReply) (tools : String → String → ToolResult)
    (maxIterations : Nat) : TurnResult :=
  toolLoopAux engine tools maxIterations [] 0 [.Idle, .Reasoning]

theorem toolLoopAux_spec (engine : List ToolResult → EngineReply)
    (tools : String → String → ToolResult) :
    ∀ (fuel : Nat) (acc : List ToolResult) (count : Nat) (tr : List LoopState),
      (toolLoopAux engine tools fuel acc count tr).trace.getLast? = some .Done ∧
        (toolLoopAux engine tools fuel acc count tr).toolCalls ≤ count + fuel ∧
        ((∀ rs, ∃ n p, engine rs = .toolCall n p) →
          (toolLoopAux engine tools fuel acc count tr).maxIterationsExceeded = true ∧
            (toolLoopAux engine tools fuel acc count tr).toolCalls = count + fuel) := by
  intro fuel
  induction fuel with
  | zero =>
    intro acc count tr
    refine ⟨?_, ?_, ?_⟩
    · rw [toolLoopAux]
      match engine acc with
      | .finalAnswer a => simp [List.getLast?_append]
      | .toolCall n p => simp [List.getLast?_append]
    · rw [toolLoopAux]
      match engine acc with
      | .finalAnswer a => simp
      | .toolCall n p => simp
    · intro hadv
      obtain ⟨n, p, hnp⟩ := hadv acc
      rw [toolLoopAux, hnp]
      simp
  | succ fuel ih =>
    intro acc count tr
    refine ⟨?_, ?_, ?_⟩
    · rw [toolLoopAux]
      match engine acc with
      | .finalAnswer a => simp [List.getLast?_append]
      | .toolCall n p => exact (ih _ _ _).1
    · rw [toolLoopAux]
      match engine acc with
      | .finalAnswer a => simp
      | .toolCall n p =>
        have h := (ih (acc ++ [tools n p]) (count + 1)
          (tr ++ [.ToolSelected, .ToolExecuting, .Reasoning])).2.1
        show (toolLoopAux engine tools fuel (acc ++ [tools n p]) (count + 1)
          (tr ++ [.ToolSelected, .ToolExecuting, .Reasoning])).toolCalls ≤ count + (fuel + 1)
        omega
    · intro hadv
      obtain ⟨n, p, hnp⟩ := hadv acc
      rw [toolLoopAux, hnp]
      have h3 := (ih (acc ++ [tools n p]) (count + 1)
        (tr ++ [.ToolSelected, .ToolExecuting, .Reasoning])).2.2 hadv
      refine ⟨h3.1, ?_⟩
      show (toolLoopAux engine tools fuel (acc ++ [tools n p]) (count + 1)
        (tr ++ [.ToolSelected, .ToolExecuting, .Reasoning])).toolCalls = count + (fuel + 1)
      omega

/-- C8. The loop always terminates at `Done` within the configured bound:
for every engine (hence every finite sequence of tool responses) and every
tool set, the trace ends at `Done` and at most `maxIterations` tool calls
run; and for an adversarial engine that always requests another tool call,
the turn still ends at `Done` after exactly `maxIterations` calls with the
`MaxIterationsExceeded` flag set (the forced transition to `Responding`
with a best-effort partial answer). -/
theorem runToolLoop_terminates (engine : List ToolResult → EngineReply)
    (tools : String → String → ToolResult) (maxIterations : Nat) :
    (runToolLoop engine tools maxIterations).trace.getLast? = some .Done ∧
      (runToolLoop engine tools maxIterations).toolCalls ≤ maxIterations ∧
      ((∀ rs, ∃ n p, engine rs = .toolCall n p) →
        (runToolLoop engine tools maxIterations).maxIterationsExceeded = true ∧
          (runToolLoop engine tools maxIterations).toolCalls = maxIterations) := by
  have h := toolLoopAux_spec engine tools maxIterations [] 0 [.Idle, .Reasoning]
  exact ⟨h.1, by simpa using h.2.1, fun hadv => ⟨(h.2.2 hadv).1, by simpa using (h.2.2 hadv).2⟩⟩

/-- The adversarial engine: whatever the tool results so far, request
another tool call. -/
def adversarialEngine : List ToolResult → EngineReply := fun _ => .toolCall "echo" "x"

/-- A trivial tool set for the witness. -/
def constTools : String → String → ToolResult := fun _ _ => .ok "y"

/-- C8 witness: the adversarial engine against a bound of 2 — the loop
reaches `Done`, makes exactly 2 tool calls, and reports
`MaxIterationsExceeded`. -/
theorem runToolLoop_terminates_witness :
    (runToolLoop adversarialEngine constTools 2).trace.getLast? = some .Done ∧
      (runToolLoop adversarialEngine constTools 2).maxIterationsExceeded = true ∧
      (runToolLoop adversarialEngine constTools 2).toolCalls = 2 :=
  have h := runToolLoop_terminates adversarialEngine constTools 2
  have hadv : ∀ rs, ∃ n p, adversarialEngine rs = .toolCall n p :=
    fun _ => ⟨"echo", "x", rfl⟩
  ⟨h.1, (h.2.2 hadv).1, (h.2.2 hadv).2⟩

/-! ## C9 — nonce assignment under concurrent store calls

`NeoXBlockchainService.store_experiment_hash` (embedded in
`src/unnamed/part_011`, lines 382–414) assigns
`"nonce": self.w3.eth.get_transaction_count(self.account.address)` and
then signs and submits — two separate interactions with the chain, with no
per-account mutex or writer queue anywhere in the function. Concurrency is
modelled as an explicit interleaving: each store call is two atomic steps,
*read the nonce* (the account's current transaction count) and *submit*
(the transaction is accepted and the count advances), and a schedule says
which call steps next.
-/

/-- Progress of one in-flight store call: not yet read a nonce, read nonce
`n`, or submitted. -/
inductive CallPhase : Type where
  | idle : CallPhase
  | read (nonce : Nat) : CallPhase
  | submitted : CallPhase
deriving DecidableEq

/-- Shared state of the signing account: its on-chain transaction count,
the phase of each concurrent call, and the nonces submitted so far in
submission order. -/
structure NonceRaceState where
  chainCount : Nat
  calls : List CallPhase
  submitted : List Nat
deriving DecidableEq

/-- One scheduler step: call `i` performs its next pending action —
`get_transaction_count` first, `send_raw_transaction` second (the accepted
transaction advances the account's count). -/
def nonceRaceStep (st : NonceRaceState) (i : Nat) : NonceRaceState :=
  match st.calls.getD i .submitted with
  | .idle => { st with calls := st.calls.set i (.read st.chainCount) }
  | .read n =>
    { chainCount := st.chainCount + 1,
      calls := st.calls.set i .submitted,
      submitted := st.submitted ++ [n] }
  | .submitted => st

/-- Run a schedule (the list of which call acts at each instant). -/
def runNonceSchedule (sched : List Nat) (st : NonceRaceState) : NonceRaceState :=
  sched.foldl nonceRaceStep st

/-- The initial state of `n` concurrent store calls against a fresh account. -/
def initNonceRace (n : Nat) : NonceRaceState :=
  ⟨0, List.replicate n .idle, []⟩

/-- C9, evaluated at the failing interleaving: two concurrent store calls
whose `get_transaction_count` reads both happen before either submission
(schedule `[0, 1, 0, 1]`) are assigned the *same* nonce — the submitted
sequence numbers are `[0, 0]`, duplicated, not strictly increasing —
while the serialized schedule `[0, 0, 1, 1]` (what the spec's mandatory
per-account mutex enforces) yields the distinct increasing `[0, 1]`. -/
theorem nonce_race_duplicate :
    (runNonceSchedule [0, 1, 0, 1] (initNonceRace 2)).submitted = [0, 0] ∧
      ¬ (runNonceSchedule [0, 1, 0, 1] (initNonceRace 2)).submitted.Nodup ∧
      (runNonceSchedule [0, 0, 1, 1] (initNonceRace 2)).submitted = [0, 1] := by
  refine ⟨by decide, ?_, by decide⟩
  intro h
  have := (List.nodup_cons.mp (by
    have e : (runNonceSchedule [0, 1, 0, 1] (initNonceRace 2)).submitted = [0, 0] := by decide
    rw [e] at h
    exact h)).1
  simp at this

/-! ## C10 — fish species identification is total, with an Unknown fallback

`IdentifyFishSpeciesTool.execute` (embedded in `src/unnamed/part_011`,
lines 909–1005, complete): clean the sequence
(`"".join(sequence.split()).upper()`), scan the three-entry reference
database for patterns occurring as substrings, keep the match with the
highest confidence (`if match_score > best_score`), and — when nothing
matches — return the `"Unknown"` result with confidence `0.0` instead of
raising.
-/

/-- One reference-database entry's payload. -/
structure SpeciesRef where
  species : String
  common_name : String
  family : String
  order : String
  confidence : Rat
  reference_id : String
  genbank_id : String
deriving DecidableEq

/-- The simplified reference database, in the dictionary's written
(insertion) order. -/
def reference_db : List (String × SpeciesRef) :=
  [("ACTGGTCA", ⟨"Oncorhynchus mykiss", "Rainbow trout", "Salmonidae", "Salmoniformes",
      98 / 100, "BOLD:AAC1234", "KX123456"⟩),
   ("TGACCTGA", ⟨"Cyprinus carpio", "Common carp", "Cyprinidae", "Cypriniformes",
      95 / 100, "BOLD:AAC5678", "KX789012"⟩),
   ("GCTATGCC", ⟨"Salmo salar", "Atlantic salmon", "Salmonidae", "Salmoniformes",
      97 / 100, "BOLD:AAC9101", "KX345678"⟩)]

/-- The cleaning step `"".join(sequence.split()).upper()`: drop all whitespace, upper-case. -/
def cleanSeq (sequence : String) : List Char :=
  (sequence.data.filter (fun c => !c.isWhitespace)).map Char.toUpper

/-- The best-match scan: `best_match`/`best_score` start at `None`/`0`;
each database pattern occurring in the cleaned sequence replaces the
best when its confidence is strictly greater. -/
def findBestMatch (cs : List Char) : Option SpeciesRef × Rat :=
  reference_db.foldl
    (fun acc pd =>
      if containsSeq pd.1.data cs then
        if acc.2 < pd.2.confidence then (some pd.2, pd.2.confidence) else acc
      else acc)
    (none, 0)

/-- The helper `_interpret_confidence`. -/
def interpretConfidence (confidence : Rat) : String :=
  if 95 / 100 ≤ confidence then
    "Highly confident identification. Species match is very reliable."
  else if 90 / 100 ≤ confidence then
    "Confident identification. Species match is reliable."
  else if 80 / 100 ≤ confidence then
    "Moderate confidence. Consider confirming with additional markers."
  else "Low confidence. Manual review recommended."

/-- The result dictionary, by the fields the claim inspects: either the
`"Unknown"` fallback or an identification. -/
inductive IdentifyOutput : Type where
  | unknown (species common_name : String) (confidence : Rat) (note : String) : IdentifyOutput
  | identified (best : SpeciesRef) (gene_region : String) (sequence_length : Nat)
      (interpretation : String) : IdentifyOutput
deriving DecidableEq

/-- The tool body `IdentifyFishSpeciesTool.execute`: clean, scan, and either report the
best match or fall back to `"Unknown"` with confidence `0.0`. -/
def identify_fish_species (sequence : String) (gene_region : String) : IdentifyOutput :=
  let cs := cleanSeq sequence
  match (findBestMatch cs).1 with
  | none =>
    .unknown "Unknown" "Unidentified fish species" 0
      "No match found in reference database. Sequence may be from a rare species or contain errors. Consider manual BLAST search."
  | some best => .identified best gene_region cs.length (interpretConfidence best.confidence)

theorem findBestMatch_none_of_no_match (cs : List Char)
    (h : ∀ pd ∈ reference_db, containsSeq pd.1.data cs = false) :
    findBestMatch cs = (none, 0) := by
  have h1 := h reference_db[0] (by simp [reference_db])
  have h2 := h reference_db[1] (by simp [reference_db])
  have h3 := h reference_db[2] (by simp [reference_db])
  simp [reference_db] at h1 h2 h3
  simp [findBestMatch, reference_db, h1, h2, h3]

/-- C10. `IdentifyFishSpeciesTool.execute` is total over its interface: it
always returns a result value, and when no reference-database pattern
occurs in the cleaned sequence it returns the `"Unknown"` result with
confidence `0.0` rather than an error. -/
theorem identify_fish_species_unknown_fallback (sequence gene_region : String)
    (h : ∀ pd ∈ reference_db, containsSeq pd.1.data (cleanSeq sequence) = false) :
    identify_fish_species sequence gene_region =
      .unknown "Unknown" "Unidentified fish species" 0
        "No match found in reference database. Sequence may be from a rare species or contain errors. Consider manual BLAST search." := by
  rw [identify_fish_species]
  rw [findBestMatch_none_of_no_match _ h]

/-- C10 witness: a sequence matching no reference pattern comes back as
`"Unknown"` with confidence `0`. -/
theorem identify_fish_species_unknown_fallback_witness :
    (∀ pd ∈ reference_db, containsSeq pd.1.data (cleanSeq "GGGG AAAA") = false) ∧
      identify_fish_species "GGGG AAAA" "COI" =
        .unknown "Unknown" "Unidentified fish species" 0
          "No match found in reference database. Sequence may be from a rare species or contain errors. Consider manual BLAST search." :=
  ⟨by decide, identify_fish_species_unknown_fallback "GGGG AAAA" "COI" (by decide)⟩
